import Mathlib

/-!
Verification of the in-memory EVM backend (`src/backend/memory.rs`) of
`rust-cevm`.  Machine words (`U256`, `H256`) are modelled as `Nat` (the code
performs no arithmetic on them except one guarded subtraction in
`block_hash`); addresses (`H160`) are also `Nat`.  `BTreeMap` is modelled as
an association list with first-match lookup, key-replacing insert and
key-filtering removal, which coincides with the map semantics on the
unique-key lists the Rust code manipulates.
-/

set_option autoImplicit false

namespace CEVM

/-- Model of `H160` addresses. -/
abbrev Addr := Nat

/-- Model of `U256` / `H256` words (the zero hash is `0`). -/
abbrev Word := Nat

/-- First-match lookup in an association list, the model of `BTreeMap::get`. -/
def mlookup {β : Type} (k : Nat) : List (Nat × β) → Option β
  | [] => none
  | kv :: rest => if kv.1 = k then some kv.2 else mlookup k rest

/-- Removal of every entry with key `k`, the model of `BTreeMap::remove`. -/
def mremove {β : Type} (k : Nat) (m : List (Nat × β)) : List (Nat × β) :=
  m.filter fun kv => decide (kv.1 ≠ k)

/-- Key-replacing insertion, the model of `BTreeMap::insert`. -/
def minsert {β : Type} (k : Nat) (v : β) (m : List (Nat × β)) : List (Nat × β) :=
  (k, v) :: mremove k m

/-- Membership test, the model of `BTreeMap::contains_key`. -/
def mcontains {β : Type} (k : Nat) (m : List (Nat × β)) : Bool :=
  (mlookup k m).isSome

/-- `Log` (re-exported from the backend superstructure): one emitted event. -/
structure Log where
  address : Addr
  topics : List Word
  data : List Nat
  deriving DecidableEq

/-- `Basic`: balance and nonce of an account, as returned by `basic`. -/
structure Basic where
  balance : Word
  nonce : Word
  deriving DecidableEq

/-- Rust `Basic::default()`. -/
def Basic.default : Basic := { balance := 0, nonce := 0 }

/-- `TxReceipt` from `memory.rs`. -/
structure TxReceipt where
  hash : Word
  caller : Addr
  to_addr : Option Addr
  block_number : Word
  cumulative_gas_used : Nat
  gas_used : Nat
  contract_addresses : List Addr
  logs : List Log
  status : Nat
  deriving DecidableEq

/-- Rust `TxReceipt::default()`. -/
def TxReceipt.default : TxReceipt :=
  { hash := 0, caller := 0, to_addr := none, block_number := 0,
    cumulative_gas_used := 0, gas_used := 0, contract_addresses := [],
    logs := [], status := 0 }

/-- `MemoryVicinity` from `memory.rs`. -/
structure MemoryVicinity where
  gas_price : Word
  origin : Addr
  chain_id : Word
  block_hashes : List Word
  block_number : Word
  block_coinbase : Addr
  block_timestamp : Word
  block_difficulty : Word
  block_gas_limit : Word
  deriving DecidableEq

/-- `MemoryAccount` from `memory.rs`. -/
structure MemoryAccount where
  nonce : Word
  balance : Word
  storage : List (Word × Word)
  code : List Nat
  created : Bool
  deriving DecidableEq

/-- Rust `MemoryAccount::default()`. -/
def MemoryAccount.default : MemoryAccount :=
  { nonce := 0, balance := 0, storage := [], code := [], created := false }

/-- `MemoryBackend` from `memory.rs` (the vicinity reference is held by value). -/
structure MemoryBackend where
  vicinity : MemoryVicinity
  state : List (Addr × MemoryAccount)
  archive_state : List (Word × List (Addr × MemoryAccount))
  local_block_num : Word
  logs : List (Word × List Log)
  tx_history : List (Word × TxReceipt)
  deriving DecidableEq

/-- `MemoryBackend::new`. -/
def MemoryBackend.new (vicinity : MemoryVicinity)
    (state : List (Addr × MemoryAccount)) : MemoryBackend :=
  { vicinity := vicinity, state := state, archive_state := [],
    local_block_num := vicinity.block_number, logs := [], tx_history := [] }

/-- `Apply` change instructions consumed by `ApplyBackend::apply`. -/
inductive Apply where
  | modify (address : Addr) (basic : Basic) (code : Option (List Nat))
      (storage : List (Word × Word)) (reset_storage : Bool)
  | delete (address : Addr)
  deriving DecidableEq

/-- The zero-slot sweep of `apply`: collect the keys whose value is the zero
hash and remove each of them (`memory.rs` lines 236-245 / 275-284). -/
def removeZeroSlots (s : List (Word × Word)) : List (Word × Word) :=
  let zeros := (s.filter fun kv => decide (kv.2 = 0)).map Prod.fst
  zeros.foldl (fun acc k => mremove k acc) s

/-- The storage-delta loop of `apply`: a zero value removes the key, a
non-zero value inserts it (`memory.rs` lines 247-253 / 286-292). -/
def applyStorageEntries (s : List (Word × Word))
    (entries : List (Word × Word)) : List (Word × Word) :=
  entries.foldl
    (fun acc kv => if kv.2 = 0 then mremove kv.1 acc else minsert kv.1 kv.2 acc) s

/-- The per-account body of a `Modify` instruction: set balance and nonce,
replace code when supplied, optionally mark created (tip branch only),
optionally reset storage, sweep zero slots, then apply the storage deltas. -/
def applyModifyAccount (account : MemoryAccount) (bas : Basic)
    (code : Option (List Nat)) (storage : List (Word × Word))
    (reset_storage : Bool) (mark_created : Bool) : MemoryAccount :=
  let a1 : MemoryAccount := { account with balance := bas.balance, nonce := bas.nonce }
  let a2 : MemoryAccount :=
    match code with
    | some c => { a1 with code := c }
    | none => a1
  let a3 : MemoryAccount := if mark_created then { a2 with created := true } else a2
  let a4 : MemoryAccount := if reset_storage then { a3 with storage := [] } else a3
  { a4 with storage := applyStorageEntries (removeZeroSlots a4.storage) storage }

/-- The emptiness test of `apply`: zero balance, zero nonce, empty code. -/
def accountIsEmpty (a : MemoryAccount) : Bool :=
  decide (a.balance = 0) && decide (a.nonce = 0) && decide (a.code.length = 0)

/-- One iteration of the instruction loop of `ApplyBackend::apply`
(`memory.rs` lines 210-307).  `tip` is the flag computed before the loop. -/
def applyOne (backend : MemoryBackend) (block : Word) (tip : Bool)
    (created_contracts : List Addr) (delete_empty : Bool) :
    Apply → MemoryBackend
  | .modify address bas code storage reset_storage =>
    if tip then
      let account := (mlookup address backend.state).getD MemoryAccount.default
      let account := applyModifyAccount account bas code storage reset_storage
        (created_contracts.contains address)
      let backend' := { backend with state := minsert address account backend.state }
      if accountIsEmpty account && delete_empty then
        { backend' with state := mremove address backend'.state }
      else backend'
    else
      let archive := (mlookup block backend.archive_state).getD []
      let account := (mlookup address archive).getD MemoryAccount.default
      let account := applyModifyAccount account bas code storage reset_storage false
      let backend' := { backend with
        archive_state := minsert block (minsert address account archive) backend.archive_state }
      if accountIsEmpty account && delete_empty then
        { backend' with state := mremove address backend'.state }
      else backend'
  | .delete address => { backend with state := mremove address backend.state }

/-- The instruction loop of `ApplyBackend::apply` (`memory.rs` lines 210-308). -/
def applyLoop (block : Word) (tip : Bool) (created_contracts : List Addr)
    (delete_empty : Bool) (values : List Apply) (backend : MemoryBackend) :
    MemoryBackend :=
  values.foldl (fun b i => applyOne b block tip created_contracts delete_empty i) backend

/-- The receipt loop of `ApplyBackend::apply` (`memory.rs` lines 317-319). -/
def recsFold (recs : List TxReceipt) (backend : MemoryBackend) : MemoryBackend :=
  recs.foldl (fun b rec => { b with tx_history := minsert rec.hash rec b.tx_history }) backend

/-- `ApplyBackend::apply` for `MemoryBackend` (`memory.rs` lines 193-320). -/
def MemoryBackend.apply (backend : MemoryBackend) (block : Word)
    (values : List Apply) (logs : List Log) (recs : List TxReceipt)
    (created_contracts : List Addr) (delete_empty : Bool) : MemoryBackend :=
  let tip : Bool := decide (block = backend.local_block_num)
  let b1 := applyLoop block tip created_contracts delete_empty values backend
  let ls := (mlookup block b1.logs).getD []
  let b2 := { b1 with logs := minsert block (ls ++ logs) b1.logs }
  recsFold recs b2

/-- `Backend::exists` for `MemoryBackend`. -/
def MemoryBackend.exists_ (b : MemoryBackend) (address : Addr) : Bool :=
  mcontains address b.state

/-- `Backend::basic` for `MemoryBackend`. -/
def MemoryBackend.basic (b : MemoryBackend) (address : Addr) : Basic :=
  ((mlookup address b.state).map fun a =>
    { balance := a.balance, nonce := a.nonce }).getD Basic.default

/-- `Backend::code_hash` for `MemoryBackend`; the Keccak-256 digest is a
parameter of the model. -/
def MemoryBackend.code_hash (b : MemoryBackend) (keccak : List Nat → Word)
    (address : Addr) : Word :=
  ((mlookup address b.state).map fun a => keccak a.code).getD (keccak [])

/-- `Backend::code_size` for `MemoryBackend`. -/
def MemoryBackend.code_size (b : MemoryBackend) (address : Addr) : Nat :=
  ((mlookup address b.state).map fun a => a.code.length).getD 0

/-- `Backend::code` for `MemoryBackend`. -/
def MemoryBackend.code (b : MemoryBackend) (address : Addr) : List Nat :=
  ((mlookup address b.state).map fun a => a.code).getD []

/-- `Backend::storage` for `MemoryBackend`. -/
def MemoryBackend.storage (b : MemoryBackend) (address : Addr) (index : Word) : Word :=
  ((mlookup address b.state).map fun a => (mlookup index a.storage).getD 0).getD 0

/-- `Backend::tx_receipt` for `MemoryBackend`. -/
def MemoryBackend.tx_receipt (b : MemoryBackend) (hash : Word) : TxReceipt :=
  (mlookup hash b.tx_history).getD TxReceipt.default

/-- `Backend::block_hash` for `MemoryBackend` (`memory.rs` lines 113-123).
In the `else` branch `number < block_number` holds, so the truncated `Nat`
subtraction agrees with the (panicking-on-underflow) `U256` subtraction. -/
def MemoryBackend.block_hash (b : MemoryBackend) (number : Word) : Word :=
  if b.vicinity.block_number ≤ number ∨
      b.vicinity.block_hashes.length ≤ b.vicinity.block_number - number - 1 then
    0
  else
    b.vicinity.block_hashes.getD (b.vicinity.block_number - number - 1) 0

/-- `Backend::block_number` for `MemoryBackend`. -/
def MemoryBackend.block_number (b : MemoryBackend) : Word :=
  b.vicinity.block_number

/-- A storage map is normalized when no entry carries the zero value. -/
def noZeroSlots (s : List (Word × Word)) : Bool :=
  s.all fun kv => decide (kv.2 ≠ 0)

/-- Whether an instruction is a `Modify`. -/
def isModify : Apply → Bool
  | .modify _ _ _ _ _ => true
  | .delete _ => false

/-- Whether an instruction is a `Modify` of the given address. -/
def isModifyOf (a : Addr) : Apply → Bool
  | .modify address _ _ _ _ => decide (address = a)
  | .delete _ => false

/-- Whether some instruction of the batch is a `Modify` of the given address. -/
def modifiesAddr (values : List Apply) (a : Addr) : Bool :=
  values.any (isModifyOf a)

/-- The account map that `Modify` instructions of an `apply` call are routed
to: the live state when `tip` holds, the archive snapshot of `block`
otherwise. -/
def routedLookup (b : MemoryBackend) (tip : Bool) (block : Word) (a : Addr) :
    Option MemoryAccount :=
  if tip then mlookup a b.state
  else mlookup a ((mlookup block b.archive_state).getD [])

/-- The last receipt of the list carrying the given transaction hash. -/
def lastRec (recs : List TxReceipt) (h : Word) : Option TxReceipt :=
  recs.foldl (fun acc r => if r.hash = h then some r else acc) none

/-- Backends reachable from `MemoryBackend.new` by `apply` calls. -/
inductive Reachable : MemoryBackend → Prop
  | new (v : MemoryVicinity) (s : List (Addr × MemoryAccount)) :
      Reachable (MemoryBackend.new v s)
  | step (b : MemoryBackend) (block : Word) (values : List Apply)
      (logs : List Log) (recs : List TxReceipt) (ccs : List Addr) (de : Bool) :
      Reachable b → Reachable (b.apply block values logs recs ccs de)

/-- The vicinity of the worked `block_hash` example: current block 100,
recent hashes `[h99, h98, h97]`. -/
def exVicinity (h99 h98 h97 : Word) : MemoryVicinity :=
  { gas_price := 0, origin := 0, chain_id := 1, block_hashes := [h99, h98, h97],
    block_number := 100, block_coinbase := 0, block_timestamp := 0,
    block_difficulty := 0, block_gas_limit := 0 }

/-- A concrete vicinity at block 100 used by the evaluation witnesses. -/
def wVicinity : MemoryVicinity := exVicinity 11 22 33

/-- A concrete account with balance 5 and a zero-valued slot, used by the
evaluation witnesses. -/
def wAccount : MemoryAccount :=
  { nonce := 0, balance := 5, storage := [(9, 0), (3, 7)], code := [], created := false }

/-- The account a tip-routed `Modify` instruction writes: the current live
account (default when absent) transformed by the instruction. -/
def tipModifiedAccount (b : MemoryBackend) (ccs : List Addr) (address : Addr)
    (bas : Basic) (code : Option (List Nat)) (storage : List (Word × Word))
    (rs : Bool) : MemoryAccount :=
  applyModifyAccount ((mlookup address b.state).getD MemoryAccount.default)
    bas code storage rs (ccs.contains address)

/-- The archive snapshot held for a block (empty when none exists yet). -/
def archiveSnapshot (b : MemoryBackend) (block : Word) :
    List (Addr × MemoryAccount) :=
  (mlookup block b.archive_state).getD []

/-- The account an archive-routed `Modify` instruction writes: the current
archived account (default when absent) transformed by the instruction; the
created-contract marking is absent from the archive branch of the source. -/
def archiveModifiedAccount (b : MemoryBackend) (block : Word) (address : Addr)
    (bas : Basic) (code : Option (List Nat)) (storage : List (Word × Word))
    (rs : Bool) : MemoryAccount :=
  applyModifyAccount ((mlookup address (archiveSnapshot b block)).getD MemoryAccount.default)
    bas code storage rs false

/-- A store position is normalized when any account found there has no
zero-valued storage slot. -/
def normalizedAt (b : MemoryBackend) (tip : Bool) (block : Word) (a : Addr) : Prop :=
  ∀ acct, routedLookup b tip block a = some acct → noZeroSlots acct.storage = true

/-- The account produced by the tip modify of the evaluation witnesses:
balance 5, nonce 1, slot 9 swept, slot 3 deleted, slot 4 set to 8. -/
def wModifiedAccount : MemoryAccount :=
  { nonce := 1, balance := 5, storage := [(4, 8)], code := [], created := false }

/-- Concrete logs for the evaluation witnesses. -/
def wLog1 : Log := { address := 1, topics := [], data := [] }

/-- A second concrete log for the evaluation witnesses. -/
def wLog2 : Log := { address := 2, topics := [], data := [] }

/-- A concrete receipt under hash 42 for the evaluation witnesses. -/
def wReceipt1 : TxReceipt := { TxReceipt.default with hash := 42, status := 1 }

/-- A second concrete receipt under the same hash 42. -/
def wReceipt2 : TxReceipt := { TxReceipt.default with hash := 42, status := 2 }

/-! ### Association-map lemmas -/

theorem mlookup_mremove_self {β : Type} (k : Nat) (m : List (Nat × β)) :
    mlookup k (mremove k m) = none := by
  induction m with
  | nil => rfl
  | cons kv rest ih =>
    by_cases h : kv.1 = k
    · simpa [mremove, List.filter, h] using ih
    · simpa [mremove, List.filter, h, mlookup] using ih

theorem mlookup_mremove_ne {β : Type} {k k' : Nat} (m : List (Nat × β))
    (h : k' ≠ k) : mlookup k' (mremove k m) = mlookup k' m := by
  induction m with
  | nil => rfl
  | cons kv rest ih =>
    by_cases hk : kv.1 = k
    · have hne : ¬ kv.1 = k' := by
        rw [hk]
        exact fun hc => h hc.symm
      rw [show mremove k (kv :: rest) = mremove k rest by
        simp [mremove, List.filter_cons, hk]]
      rw [ih]
      simp [mlookup, hne]
    · rw [show mremove k (kv :: rest) = kv :: mremove k rest by
        simp [mremove, List.filter_cons, hk]]
      by_cases hk' : kv.1 = k'
      · simp [mlookup, hk']
      · simp [mlookup, hk', ih]

theorem mlookup_minsert_self {β : Type} (k : Nat) (v : β) (m : List (Nat × β)) :
    mlookup k (minsert k v m) = some v := by
  simp [minsert, mlookup]

theorem mlookup_minsert_ne {β : Type} {k k' : Nat} (v : β) (m : List (Nat × β))
    (h : k' ≠ k) : mlookup k' (minsert k v m) = mlookup k' m := by
  have : k ≠ k' := fun hc => h hc.symm
  simp [minsert, mlookup, this, mlookup_mremove_ne m h]

/-! ### Field-preservation lemmas for the instruction loop -/

theorem applyOne_vicinity (b : MemoryBackend) (block : Word) (tip : Bool)
    (ccs : List Addr) (de : Bool) (i : Apply) :
    (applyOne b block tip ccs de i).vicinity = b.vicinity := by
  cases i <;> simp only [applyOne] <;> split <;> split <;> rfl

theorem applyOne_local_block_num (b : MemoryBackend) (block : Word) (tip : Bool)
    (ccs : List Addr) (de : Bool) (i : Apply) :
    (applyOne b block tip ccs de i).local_block_num = b.local_block_num := by
  cases i <;> simp only [applyOne] <;> split <;> split <;> rfl

theorem applyOne_logs (b : MemoryBackend) (block : Word) (tip : Bool)
    (ccs : List Addr) (de : Bool) (i : Apply) :
    (applyOne b block tip ccs de i).logs = b.logs := by
  cases i <;> simp only [applyOne] <;> split <;> split <;> rfl

theorem applyOne_tx_history (b : MemoryBackend) (block : Word) (tip : Bool)
    (ccs : List Addr) (de : Bool) (i : Apply) :
    (applyOne b block tip ccs de i).tx_history = b.tx_history := by
  cases i <;> simp only [applyOne] <;> split <;> split <;> rfl

theorem applyLoop_vicinity (block : Word) (tip : Bool) (ccs : List Addr)
    (de : Bool) (values : List Apply) (b : MemoryBackend) :
    (applyLoop block tip ccs de values b).vicinity = b.vicinity := by
  induction values generalizing b with
  | nil => rfl
  | cons i rest ih =>
    simp only [applyLoop, List.foldl_cons] at ih ⊢
    rw [ih, applyOne_vicinity]

theorem applyLoop_local_block_num (block : Word) (tip : Bool) (ccs : List Addr)
    (de : Bool) (values : List Apply) (b : MemoryBackend) :
    (applyLoop block tip ccs de values b).local_block_num = b.local_block_num := by
  induction values generalizing b with
  | nil => rfl
  | cons i rest ih =>
    simp only [applyLoop, List.foldl_cons] at ih ⊢
    rw [ih, applyOne_local_block_num]

theorem applyLoop_logs (block : Word) (tip : Bool) (ccs : List Addr)
    (de : Bool) (values : List Apply) (b : MemoryBackend) :
    (applyLoop block tip ccs de values b).logs = b.logs := by
  induction values generalizing b with
  | nil => rfl
  | cons i rest ih =>
    simp only [applyLoop, List.foldl_cons] at ih ⊢
    rw [ih, applyOne_logs]

theorem applyLoop_tx_history (block : Word) (tip : Bool) (ccs : List Addr)
    (de : Bool) (values : List Apply) (b : MemoryBackend) :
    (applyLoop block tip ccs de values b).tx_history = b.tx_history := by
  induction values generalizing b with
  | nil => rfl
  | cons i rest ih =>
    simp only [applyLoop, List.foldl_cons] at ih ⊢
    rw [ih, applyOne_tx_history]

/-! ### Field-preservation lemmas for the receipt loop -/

theorem recsFold_state (recs : List TxReceipt) (b : MemoryBackend) :
    (recsFold recs b).state = b.state := by
  induction recs generalizing b with
  | nil => rfl
  | cons r rest ih =>
    simp only [recsFold, List.foldl_cons] at ih ⊢
    rw [ih]

theorem recsFold_archive_state (recs : List TxReceipt) (b : MemoryBackend) :
    (recsFold recs b).archive_state = b.archive_state := by
  induction recs generalizing b with
  | nil => rfl
  | cons r rest ih =>
    simp only [recsFold, List.foldl_cons] at ih ⊢
    rw [ih]

theorem recsFold_logs (recs : List TxReceipt) (b : MemoryBackend) :
    (recsFold recs b).logs = b.logs := by
  induction recs generalizing b with
  | nil => rfl
  | cons r rest ih =>
    simp only [recsFold, List.foldl_cons] at ih ⊢
    rw [ih]

theorem recsFold_vicinity (recs : List TxReceipt) (b : MemoryBackend) :
    (recsFold recs b).vicinity = b.vicinity := by
  induction recs generalizing b with
  | nil => rfl
  | cons r rest ih =>
    simp only [recsFold, List.foldl_cons] at ih ⊢
    rw [ih]

theorem recsFold_local_block_num (recs : List TxReceipt) (b : MemoryBackend) :
    (recsFold recs b).local_block_num = b.local_block_num := by
  induction recs generalizing b with
  | nil => rfl
  | cons r rest ih =>
    simp only [recsFold, List.foldl_cons] at ih ⊢
    rw [ih]

/-! ### Decomposition of `apply` into its three phases -/

theorem apply_state (backend : MemoryBackend) (block : Word) (values : List Apply)
    (logs : List Log) (recs : List TxReceipt) (ccs : List Addr) (de : Bool) :
    (backend.apply block values logs recs ccs de).state =
      (applyLoop block (decide (block = backend.local_block_num)) ccs de values backend).state := by
  simp only [MemoryBackend.apply, recsFold_state]

theorem apply_archive_state (backend : MemoryBackend) (block : Word)
    (values : List Apply) (logs : List Log) (recs : List TxReceipt)
    (ccs : List Addr) (de : Bool) :
    (backend.apply block values logs recs ccs de).archive_state =
      (applyLoop block (decide (block = backend.local_block_num)) ccs de values backend).archive_state := by
  simp only [MemoryBackend.apply, recsFold_archive_state]

theorem apply_vicinity (backend : MemoryBackend) (block : Word) (values : List Apply)
    (logs : List Log) (recs : List TxReceipt) (ccs : List Addr) (de : Bool) :
    (backend.apply block values logs recs ccs de).vicinity = backend.vicinity := by
  simp only [MemoryBackend.apply, recsFold_vicinity, applyLoop_vicinity]

theorem apply_local_block_num (backend : MemoryBackend) (block : Word)
    (values : List Apply) (logs : List Log) (recs : List TxReceipt)
    (ccs : List Addr) (de : Bool) :
    (backend.apply block values logs recs ccs de).local_block_num =
      backend.local_block_num := by
  simp only [MemoryBackend.apply, recsFold_local_block_num, applyLoop_local_block_num]

theorem apply_logs_lookup (backend : MemoryBackend) (block : Word)
    (values : List Apply) (logs : List Log) (recs : List TxReceipt)
    (ccs : List Addr) (de : Bool) :
    mlookup block (backend.apply block values logs recs ccs de).logs =
      some ((mlookup block backend.logs).getD [] ++ logs) := by
  simp only [MemoryBackend.apply, recsFold_logs, applyLoop_logs,
    mlookup_minsert_self]

/-! ### Equation lemmas for a single instruction -/

theorem applyOne_delete_eq (b : MemoryBackend) (block : Word) (tip : Bool)
    (ccs : List Addr) (de : Bool) (address : Addr) :
    applyOne b block tip ccs de (.delete address) =
      { b with state := mremove address b.state } := rfl

theorem applyOne_modify_tip_eq (b : MemoryBackend) (block : Word)
    (ccs : List Addr) (de : Bool) (address : Addr) (bas : Basic)
    (code : Option (List Nat)) (storage : List (Word × Word)) (rs : Bool) :
    applyOne b block true ccs de (.modify address bas code storage rs) =
      if accountIsEmpty (tipModifiedAccount b ccs address bas code storage rs) && de then
        { b with state := (mremove address
            (minsert address (tipModifiedAccount b ccs address bas code storage rs) b.state)) }
      else
        { b with state := (minsert address
            (tipModifiedAccount b ccs address bas code storage rs) b.state) } := rfl

theorem applyOne_modify_nontip_eq (b : MemoryBackend) (block : Word)
    (ccs : List Addr) (de : Bool) (address : Addr) (bas : Basic)
    (code : Option (List Nat)) (storage : List (Word × Word)) (rs : Bool) :
    applyOne b block false ccs de (.modify address bas code storage rs) =
      if accountIsEmpty (archiveModifiedAccount b block address bas code storage rs) && de then
        { b with
          archive_state := (minsert block
            (minsert address (archiveModifiedAccount b block address bas code storage rs)
              (archiveSnapshot b block)) b.archive_state),
          state := mremove address b.state }
      else
        { b with
          archive_state := (minsert block
            (minsert address (archiveModifiedAccount b block address bas code storage rs)
              (archiveSnapshot b block)) b.archive_state) } := rfl

/-! ### Normalization of storage by `apply` -/

theorem mem_foldl_mremove {β : Type} (ks : List Nat) (s : List (Nat × β))
    (x : Nat × β) (hx : x ∈ ks.foldl (fun acc k => mremove k acc) s) :
    x ∈ s ∧ x.1 ∉ ks := by
  induction ks generalizing s with
  | nil => simpa using hx
  | cons k rest ih =>
    simp only [List.foldl_cons] at hx
    obtain ⟨h1, h2⟩ := ih (mremove k s) hx
    rw [mremove, List.mem_filter] at h1
    obtain ⟨hs, hpred⟩ := h1
    have hne : x.1 ≠ k := by simpa using hpred
    refine ⟨hs, fun hmem => ?_⟩
    rcases List.mem_cons.mp hmem with hh | hh
    · exact hne hh
    · exact h2 hh

theorem noZeroSlots_removeZeroSlots (s : List (Word × Word)) :
    noZeroSlots (removeZeroSlots s) = true := by
  rw [noZeroSlots, List.all_eq_true]
  intro x hx
  simp only [removeZeroSlots] at hx
  obtain ⟨hs, hz⟩ := mem_foldl_mremove _ _ _ hx
  refine decide_eq_true ?_
  intro h0
  refine hz (List.mem_map.mpr ⟨x, ?_, rfl⟩)
  exact List.mem_filter.mpr ⟨hs, by simpa using h0⟩

theorem noZeroSlots_mremove (k : Word) (s : List (Word × Word))
    (h : noZeroSlots s = true) : noZeroSlots (mremove k s) = true := by
  rw [noZeroSlots, List.all_eq_true] at h ⊢
  intro x hx
  rw [mremove, List.mem_filter] at hx
  exact h x hx.1

theorem noZeroSlots_minsert (k v : Word) (s : List (Word × Word)) (hv : v ≠ 0)
    (h : noZeroSlots s = true) : noZeroSlots (minsert k v s) = true := by
  have hrem := noZeroSlots_mremove k s h
  rw [noZeroSlots, List.all_eq_true] at hrem ⊢
  intro x hx
  rcases List.mem_cons.mp hx with hh | hh
  · subst hh
    exact decide_eq_true hv
  · exact hrem x hh

theorem noZeroSlots_applyStorageEntries (entries : List (Word × Word))
    (s : List (Word × Word)) (h : noZeroSlots s = true) :
    noZeroSlots (applyStorageEntries s entries) = true := by
  induction entries generalizing s with
  | nil => exact h
  | cons kv rest ih =>
    have step : applyStorageEntries s (kv :: rest) =
        applyStorageEntries
          (if kv.2 = 0 then mremove kv.1 s else minsert kv.1 kv.2 s) rest := rfl
    rw [step]
    by_cases h0 : kv.2 = 0
    · rw [if_pos h0]
      exact ih _ (noZeroSlots_mremove _ _ h)
    · rw [if_neg h0]
      exact ih _ (noZeroSlots_minsert _ _ _ h0 h)

theorem noZeroSlots_applyModifyAccount (account : MemoryAccount) (bas : Basic)
    (code : Option (List Nat)) (storage : List (Word × Word)) (rs mk : Bool) :
    noZeroSlots (applyModifyAccount account bas code storage rs mk).storage = true := by
  exact noZeroSlots_applyStorageEntries storage _ (noZeroSlots_removeZeroSlots _)

theorem routedLookup_applyOne_modify_self_tip (b : MemoryBackend) (block : Word)
    (ccs : List Addr) (de : Bool) (address : Addr) (bas : Basic)
    (code : Option (List Nat)) (storage : List (Word × Word)) (rs : Bool) :
    routedLookup (applyOne b block true ccs de (.modify address bas code storage rs))
        true block address =
      if accountIsEmpty (tipModifiedAccount b ccs address bas code storage rs) && de then
        none
      else some (tipModifiedAccount b ccs address bas code storage rs) := by
  rw [applyOne_modify_tip_eq]
  by_cases hp : (accountIsEmpty (tipModifiedAccount b ccs address bas code storage rs) && de) = true
  · rw [if_pos hp, if_pos hp, routedLookup]
    simp [mlookup_mremove_self]
  · rw [if_neg hp, if_neg hp, routedLookup]
    simp [mlookup_minsert_self]

theorem routedLookup_applyOne_modify_self_nontip (b : MemoryBackend) (block : Word)
    (ccs : List Addr) (de : Bool) (address : Addr) (bas : Basic)
    (code : Option (List Nat)) (storage : List (Word × Word)) (rs : Bool) :
    routedLookup (applyOne b block false ccs de (.modify address bas code storage rs))
        false block address =
      some (archiveModifiedAccount b block address bas code storage rs) := by
  rw [applyOne_modify_nontip_eq]
  by_cases hp : (accountIsEmpty (archiveModifiedAccount b block address bas code storage rs) && de) = true
  · rw [if_pos hp, routedLookup]
    simp [mlookup_minsert_self]
  · rw [if_neg hp, routedLookup]
    simp [mlookup_minsert_self]

theorem routedLookup_applyOne_other (b : MemoryBackend) (block : Word)
    (tip : Bool) (ccs : List Addr) (de : Bool) (i : Apply) (a : Addr)
    (hi : isModifyOf a i = false) :
    routedLookup (applyOne b block tip ccs de i) tip block a =
        routedLookup b tip block a ∨
      routedLookup (applyOne b block tip ccs de i) tip block a = none := by
  cases i with
  | delete address =>
    rw [applyOne_delete_eq]
    cases tip with
    | false =>
      left
      rw [routedLookup, routedLookup]
      simp
    | true =>
      by_cases ha : a = address
      · right
        subst ha
        rw [routedLookup]
        simp [mlookup_mremove_self]
      · left
        rw [routedLookup, routedLookup]
        simp [mlookup_mremove_ne _ ha]
  | modify address bas code storage rs =>
    have ha : a ≠ address := by
      intro hc
      rw [isModifyOf] at hi
      subst hc
      simp at hi
    left
    cases tip with
    | true =>
      rw [applyOne_modify_tip_eq]
      by_cases hp : (accountIsEmpty (tipModifiedAccount b ccs address bas code storage rs) && de) = true
      · rw [if_pos hp, routedLookup, routedLookup]
        simp [mlookup_mremove_ne _ ha, mlookup_minsert_ne _ _ ha]
      · rw [if_neg hp, routedLookup, routedLookup]
        simp [mlookup_minsert_ne _ _ ha]
    | false =>
      rw [applyOne_modify_nontip_eq]
      by_cases hp : (accountIsEmpty (archiveModifiedAccount b block address bas code storage rs) && de) = true
      · rw [if_pos hp, routedLookup, routedLookup]
        simp [mlookup_minsert_self, mlookup_minsert_ne _ _ ha, archiveSnapshot]
      · rw [if_neg hp, routedLookup, routedLookup]
        simp [mlookup_minsert_self, mlookup_minsert_ne _ _ ha, archiveSnapshot]

theorem normalizedAt_applyOne_estab (b : MemoryBackend) (block : Word)
    (tip : Bool) (ccs : List Addr) (de : Bool) (i : Apply) (a : Addr)
    (hi : isModifyOf a i = true) :
    normalizedAt (applyOne b block tip ccs de i) tip block a := by
  cases i with
  | delete address => simp [isModifyOf] at hi
  | modify address bas code storage rs =>
    have ha : address = a := by simpa [isModifyOf] using hi
    subst ha
    intro acct hacct
    cases tip with
    | true =>
      rw [routedLookup_applyOne_modify_self_tip] at hacct
      by_cases hp : (accountIsEmpty (tipModifiedAccount b ccs address bas code storage rs) && de) = true
      · rw [if_pos hp] at hacct
        exact absurd hacct (by simp)
      · rw [if_neg hp] at hacct
        obtain rfl : tipModifiedAccount b ccs address bas code storage rs = acct :=
          Option.some.inj hacct
        exact noZeroSlots_applyModifyAccount _ _ _ _ _ _
    | false =>
      rw [routedLookup_applyOne_modify_self_nontip] at hacct
      obtain rfl : archiveModifiedAccount b block address bas code storage rs = acct :=
        Option.some.inj hacct
      exact noZeroSlots_applyModifyAccount _ _ _ _ _ _

theorem normalizedAt_applyOne_pres (b : MemoryBackend) (block : Word)
    (tip : Bool) (ccs : List Addr) (de : Bool) (i : Apply) (a : Addr)
    (hi : isModifyOf a i = false) (hb : normalizedAt b tip block a) :
    normalizedAt (applyOne b block tip ccs de i) tip block a := by
  intro acct hacct
  rcases routedLookup_applyOne_other b block tip ccs de i a hi with h | h
  · rw [h] at hacct
    exact hb acct hacct
  · rw [h] at hacct
    exact absurd hacct (by simp)

theorem normalizedAt_applyLoop (block : Word) (tip : Bool) (ccs : List Addr)
    (de : Bool) (values : List Apply) :
    ∀ (b : MemoryBackend) (a : Addr),
      modifiesAddr values a = true ∨ normalizedAt b tip block a →
      normalizedAt (applyLoop block tip ccs de values b) tip block a := by
  induction values with
  | nil =>
    intro b a h
    rcases h with h | h
    · simp [modifiesAddr] at h
    · exact h
  | cons i rest ih =>
    intro b a h
    have step : applyLoop block tip ccs de (i :: rest) b =
        applyLoop block tip ccs de rest (applyOne b block tip ccs de i) := rfl
    rw [step]
    by_cases hmi : isModifyOf a i = true
    · by_cases hmr : modifiesAddr rest a = true
      · exact ih _ a (Or.inl hmr)
      · exact ih _ a (Or.inr (normalizedAt_applyOne_estab b block tip ccs de i a hmi))
    · have hmi' : isModifyOf a i = false := by
        exact Bool.not_eq_true _ ▸ (eq_false_of_ne_true hmi)
      rcases h with h | h
      · simp only [modifiesAddr, List.any_cons, Bool.or_eq_true] at h
        rcases h with hh | hh
        · exact absurd hh hmi
        · exact ih _ a (Or.inl hh)
      · exact ih _ a
          (Or.inr (normalizedAt_applyOne_pres b block tip ccs de i a hmi' h))

/-! ### Frame property of the non-tip instruction loop -/

theorem applyLoop_nontip_frame (block : Word) (ccs : List Addr)
    (values : List Apply) :
    ∀ b : MemoryBackend, values.all isModify = true →
      (applyLoop block false ccs false values b).state = b.state ∧
      (∀ blk, blk ≠ block →
        mlookup blk (applyLoop block false ccs false values b).archive_state =
          mlookup blk b.archive_state) ∧
      ((mlookup block b.archive_state).isSome = true →
        (mlookup block (applyLoop block false ccs false values b).archive_state).isSome = true) ∧
      (values ≠ [] →
        (mlookup block (applyLoop block false ccs false values b).archive_state).isSome = true) := by
  induction values with
  | nil =>
    intro b _
    exact ⟨rfl, fun _ _ => rfl, fun h => h, fun h => absurd rfl h⟩
  | cons i rest ih =>
    intro b hall
    cases i with
    | delete address => simp [isModify] at hall
    | modify address bas code storage rs =>
      have hrest : rest.all isModify = true := by
        rw [List.all_cons] at hall
        exact (Bool.and_eq_true _ _ ▸ hall).2
      have step : applyLoop block false ccs false (Apply.modify address bas code storage rs :: rest) b =
          applyLoop block false ccs false rest
            (applyOne b block false ccs false (.modify address bas code storage rs)) := rfl
      have hb' : applyOne b block false ccs false (.modify address bas code storage rs) =
          { b with
            archive_state := (minsert block
              (minsert address (archiveModifiedAccount b block address bas code storage rs)
                (archiveSnapshot b block)) b.archive_state) } := by
        rw [applyOne_modify_nontip_eq]
        simp
      obtain ⟨h1, h2, h3, _h4⟩ :=
        ih (applyOne b block false ccs false (.modify address bas code storage rs)) hrest
      rw [step, hb']
      rw [hb'] at h1 h2 h3
      refine ⟨by simpa using h1, ?_, ?_, ?_⟩
      · intro blk hblk
        rw [h2 blk hblk]
        simpa using mlookup_minsert_ne _ _ hblk
      · intro _
        apply h3
        simp [mlookup_minsert_self]
      · intro _
        apply h3
        simp [mlookup_minsert_self]

/-! ### Receipt bookkeeping -/

theorem option_or_if {α : Type} (L : Option α) (c : Prop) [Decidable c]
    (r : α) (a : Option α) :
    L.or (if c then some r else a) = (L.or (if c then some r else none)).or a := by
  cases L with
  | some x => rfl
  | none =>
    by_cases hc : c
    · rw [if_pos hc, if_pos hc]
      rfl
    · rw [if_neg hc, if_neg hc]
      rfl

theorem lastRec_acc (h : Word) (recs : List TxReceipt) :
    ∀ a : Option TxReceipt,
      recs.foldl (fun acc r => if r.hash = h then some r else acc) a =
        (lastRec recs h).or a := by
  induction recs with
  | nil => intro a; rfl
  | cons r rest ih =>
    intro a
    have step : (r :: rest).foldl (fun acc r => if r.hash = h then some r else acc) a =
        rest.foldl (fun acc r => if r.hash = h then some r else acc)
          (if r.hash = h then some r else a) := rfl
    have hl : lastRec (r :: rest) h =
        (lastRec rest h).or (if r.hash = h then some r else none) := by
      rw [lastRec]
      exact ih _
    rw [step, ih _, hl, option_or_if]

theorem mlookup_recsFold (recs : List TxReceipt) :
    ∀ (b : MemoryBackend) (h : Word),
      mlookup h (recsFold recs b).tx_history =
        (lastRec recs h).or (mlookup h b.tx_history) := by
  induction recs with
  | nil => intro b h; rfl
  | cons r rest ih =>
    intro b h
    have step : recsFold (r :: rest) b =
        recsFold rest { b with tx_history := minsert r.hash r b.tx_history } := rfl
    rw [step, ih]
    have hm : mlookup h (minsert r.hash r b.tx_history) =
        (if r.hash = h then some r else mlookup h b.tx_history) := by
      by_cases hc : r.hash = h
      · rw [if_pos hc, hc, mlookup_minsert_self]
      · rw [if_neg hc, mlookup_minsert_ne _ _ (fun hx => hc hx.symm)]
    have hl : lastRec (r :: rest) h =
        (lastRec rest h).or (if r.hash = h then some r else none) := by
      rw [lastRec]
      exact lastRec_acc h rest _
    rw [hm, hl, option_or_if]

theorem apply_tx_history_lookup (backend : MemoryBackend) (block : Word)
    (values : List Apply) (logs : List Log) (recs : List TxReceipt)
    (ccs : List Addr) (de : Bool) (h : Word) :
    mlookup h (backend.apply block values logs recs ccs de).tx_history =
      (lastRec recs h).or (mlookup h backend.tx_history) := by
  rw [MemoryBackend.apply, mlookup_recsFold]
  simp [applyLoop_tx_history]

/-! ### Reachability invariant -/

theorem reachable_local_eq (b : MemoryBackend) (hb : Reachable b) :
    b.local_block_num = b.vicinity.block_number := by
  induction hb with
  | new v s => rfl
  | step b block values logs recs ccs de hb ih =>
    rw [apply_local_block_num, apply_vicinity]
    exact ih

/-! ### Claims -/

/-- C1, counterexample to the claim as stated: applying to non-tip block 99,
with pruneEmpty true, a modify whose resulting account is empty does NOT
remove the address from the archive map for block 99 (the empty account is
still there), and it DOES remove the address from the live AccountStore. -/
theorem prune_nontip_targets_archive_counterexample :
    (99 : Word) ≠ (MemoryBackend.new wVicinity [(7, wAccount)]).local_block_num ∧
    accountIsEmpty (archiveModifiedAccount (MemoryBackend.new wVicinity [(7, wAccount)])
      99 7 { balance := 0, nonce := 0 } none [] false) = true ∧
    mlookup 7 ((mlookup 99 ((MemoryBackend.new wVicinity [(7, wAccount)]).apply 99
        [Apply.modify 7 { balance := 0, nonce := 0 } none [] false] [] [] [] true).archive_state).getD [])
      = some MemoryAccount.default ∧
    mlookup 7 (MemoryBackend.new wVicinity [(7, wAccount)]).state = some wAccount ∧
    mlookup 7 ((MemoryBackend.new wVicinity [(7, wAccount)]).apply 99
        [Apply.modify 7 { balance := 0, nonce := 0 } none [] false] [] [] [] true).state
      = none := by decide

/-- C1 (amended): for a non-tip apply with pruneEmpty true, a modify whose
resulting account is empty removes that address from the live AccountStore,
while the archive snapshot for that block keeps the empty resulting
account. -/
theorem prune_nontip_removes_from_live_state (backend : MemoryBackend)
    (block : Word) (address : Addr) (bas : Basic) (code : Option (List Nat))
    (storage : List (Word × Word)) (rs : Bool) (logs : List Log)
    (recs : List TxReceipt) (ccs : List Addr)
    (hblock : block ≠ backend.local_block_num)
    (hempty : accountIsEmpty
      (archiveModifiedAccount backend block address bas code storage rs) = true) :
    mlookup address (backend.apply block [Apply.modify address bas code storage rs]
        logs recs ccs true).state = none ∧
    mlookup address ((mlookup block (backend.apply block
        [Apply.modify address bas code storage rs] logs recs ccs true).archive_state).getD [])
      = some (archiveModifiedAccount backend block address bas code storage rs) := by
  have htip : decide (block = backend.local_block_num) = false := decide_eq_false hblock
  have hloop : applyLoop block false ccs true [Apply.modify address bas code storage rs] backend =
      applyOne backend block false ccs true (.modify address bas code storage rs) := rfl
  have happ : applyOne backend block false ccs true (.modify address bas code storage rs) =
      { backend with
        archive_state := (minsert block
          (minsert address (archiveModifiedAccount backend block address bas code storage rs)
            (archiveSnapshot backend block)) backend.archive_state),
        state := mremove address backend.state } := by
    rw [applyOne_modify_nontip_eq, if_pos (show (accountIsEmpty
      (archiveModifiedAccount backend block address bas code storage rs) && true) = true by
        rw [hempty]
        rfl)]
  constructor
  · rw [apply_state, htip, hloop, happ]
    simp [mlookup_mremove_self]
  · rw [apply_archive_state, htip, hloop, happ]
    simp [mlookup_minsert_self]

/-- C1 witness: the amended theorem applied to the concrete non-tip scenario
of the counterexample. -/
theorem prune_nontip_removes_from_live_state_witness :
    (99 : Word) ≠ (MemoryBackend.new wVicinity [(7, wAccount)]).local_block_num ∧
    accountIsEmpty (archiveModifiedAccount (MemoryBackend.new wVicinity [(7, wAccount)])
      99 7 { balance := 0, nonce := 0 } none [] false) = true ∧
    (mlookup 7 ((MemoryBackend.new wVicinity [(7, wAccount)]).apply 99
        [Apply.modify 7 { balance := 0, nonce := 0 } none [] false] [] [] [] true).state = none ∧
    mlookup 7 ((mlookup 99 ((MemoryBackend.new wVicinity [(7, wAccount)]).apply 99
        [Apply.modify 7 { balance := 0, nonce := 0 } none [] false] [] [] [] true).archive_state).getD [])
      = some (archiveModifiedAccount (MemoryBackend.new wVicinity [(7, wAccount)])
          99 7 { balance := 0, nonce := 0 } none [] false)) :=
  ⟨by decide, by decide,
    prune_nontip_removes_from_live_state (MemoryBackend.new wVicinity [(7, wAccount)])
      99 7 { balance := 0, nonce := 0 } none [] false [] [] []
      (by decide) (by decide)⟩

/-- C2, counterexample to the claim as stated: a non-tip apply whose batch
contains only modify instructions can still change the live AccountStore,
because the empty-account prune removes from the live state. -/
theorem nontip_apply_state_unchanged_counterexample :
    (99 : Word) ≠ (MemoryBackend.new wVicinity [(8, wAccount)]).local_block_num ∧
    [Apply.modify 8 { balance := 0, nonce := 0 } none [] false].all isModify = true ∧
    ((MemoryBackend.new wVicinity [(8, wAccount)]).apply 99
        [Apply.modify 8 { balance := 0, nonce := 0 } none [] false] [] [] [] true).state ≠
      (MemoryBackend.new wVicinity [(8, wAccount)]).state := by decide

/-- C2 (amended): for a non-tip apply whose batch contains only modify
instructions and whose pruneEmpty flag is false, all changes land in the
archive snapshot for that block (created on demand) and the live
AccountStore is left unchanged. -/
theorem nontip_modify_only_frame (backend : MemoryBackend) (block : Word)
    (values : List Apply) (logs : List Log) (recs : List TxReceipt)
    (ccs : List Addr)
    (hblock : block ≠ backend.local_block_num)
    (hmod : values.all isModify = true) :
    (backend.apply block values logs recs ccs false).state = backend.state ∧
    (∀ blk, blk ≠ block →
      mlookup blk (backend.apply block values logs recs ccs false).archive_state =
        mlookup blk backend.archive_state) ∧
    (values ≠ [] →
      (mlookup block (backend.apply block values logs recs ccs false).archive_state).isSome = true) := by
  have htip : decide (block = backend.local_block_num) = false := decide_eq_false hblock
  obtain ⟨h1, h2, _h3, h4⟩ := applyLoop_nontip_frame block ccs values backend hmod
  refine ⟨?_, ?_, ?_⟩
  · rw [apply_state, htip]
    exact h1
  · intro blk hblk
    rw [apply_archive_state, htip]
    exact h2 blk hblk
  · intro hne
    rw [apply_archive_state, htip]
    exact h4 hne

/-- C2 witness: the amended theorem applied to a concrete non-tip
modify-only batch with pruneEmpty false. -/
theorem nontip_modify_only_frame_witness :
    (99 : Word) ≠ (MemoryBackend.new wVicinity [(7, wAccount)]).local_block_num ∧
    [Apply.modify 8 { balance := 1, nonce := 0 } none [] false].all isModify = true ∧
    ((MemoryBackend.new wVicinity [(7, wAccount)]).apply 99
        [Apply.modify 8 { balance := 1, nonce := 0 } none [] false] [] [] [] false).state =
      (MemoryBackend.new wVicinity [(7, wAccount)]).state ∧
    mlookup 98 ((MemoryBackend.new wVicinity [(7, wAccount)]).apply 99
        [Apply.modify 8 { balance := 1, nonce := 0 } none [] false] [] [] [] false).archive_state =
      mlookup 98 (MemoryBackend.new wVicinity [(7, wAccount)]).archive_state ∧
    (mlookup 99 ((MemoryBackend.new wVicinity [(7, wAccount)]).apply 99
        [Apply.modify 8 { balance := 1, nonce := 0 } none [] false] [] [] [] false).archive_state).isSome = true :=
  ⟨by decide, by decide,
    (nontip_modify_only_frame (MemoryBackend.new wVicinity [(7, wAccount)]) 99
      [Apply.modify 8 { balance := 1, nonce := 0 } none [] false] [] [] []
      (by decide) (by decide)).1,
    (nontip_modify_only_frame (MemoryBackend.new wVicinity [(7, wAccount)]) 99
      [Apply.modify 8 { balance := 1, nonce := 0 } none [] false] [] [] []
      (by decide) (by decide)).2.1 98 (by decide),
    (nontip_modify_only_frame (MemoryBackend.new wVicinity [(7, wAccount)]) 99
      [Apply.modify 8 { balance := 1, nonce := 0 } none [] false] [] [] []
      (by decide) (by decide)).2.2 (by decide)⟩

/-- C3: `block_hash` returns the zero hash when the queried number is not
strictly below the current block number, or when the offset
`blockNumber - number - 1` is not a valid position of the recent-hashes
window; otherwise it returns the window entry at that offset.  With
`blockNumber = 100` and `blockHashes = [h99, h98, h97]`, `block_hash 99 = h99`,
`block_hash 96 = 0` and `block_hash 100 = 0`. -/
theorem block_hash_characterization :
    (∀ (b : MemoryBackend) (n : Word),
      b.vicinity.block_number ≤ n → b.block_hash n = 0) ∧
    (∀ (b : MemoryBackend) (n : Word), n < b.vicinity.block_number →
      b.vicinity.block_hashes.length ≤ b.vicinity.block_number - n - 1 →
      b.block_hash n = 0) ∧
    (∀ (b : MemoryBackend) (n : Word)
      (h : b.vicinity.block_number - n - 1 < b.vicinity.block_hashes.length),
      n < b.vicinity.block_number →
      b.block_hash n =
        b.vicinity.block_hashes.get ⟨b.vicinity.block_number - n - 1, h⟩) ∧
    (∀ (h99 h98 h97 : Word) (s : List (Addr × MemoryAccount)),
      (MemoryBackend.new (exVicinity h99 h98 h97) s).block_hash 99 = h99 ∧
      (MemoryBackend.new (exVicinity h99 h98 h97) s).block_hash 96 = 0 ∧
      (MemoryBackend.new (exVicinity h99 h98 h97) s).block_hash 100 = 0) := by
  refine ⟨?_, ?_, ?_, ?_⟩
  · intro b n h
    rw [MemoryBackend.block_hash, if_pos (Or.inl h)]
  · intro b n _ h
    rw [MemoryBackend.block_hash, if_pos (Or.inr h)]
  · intro b n h hlt
    have hneg : ¬(b.vicinity.block_number ≤ n ∨
        b.vicinity.block_hashes.length ≤ b.vicinity.block_number - n - 1) := by
      rintro (hc | hc)
      · exact Nat.lt_irrefl _ (Nat.lt_of_lt_of_le hlt hc)
      · exact Nat.lt_irrefl _ (Nat.lt_of_lt_of_le h hc)
    rw [MemoryBackend.block_hash, if_neg hneg]
    exact List.getD_eq_get _ _ h
  · intro h99 h98 h97 s
    refine ⟨?_, ?_, ?_⟩ <;>
      norm_num [MemoryBackend.block_hash, MemoryBackend.new, exVicinity, List.getD]

/-- C3 witness: the characterization applied at the concrete vicinity of the
examples, offset 1 inside the window. -/
theorem block_hash_characterization_witness :
    98 < (MemoryBackend.new wVicinity []).vicinity.block_number ∧
    (MemoryBackend.new wVicinity []).vicinity.block_number - 98 - 1 <
      (MemoryBackend.new wVicinity []).vicinity.block_hashes.length ∧
    (MemoryBackend.new wVicinity []).block_hash 98 = 22 := by
  refine ⟨by decide, by decide, ?_⟩
  have h := block_hash_characterization.2.2.1 (MemoryBackend.new wVicinity [])
    98 (by decide) (by decide)
  rw [h]
  decide

/-- C4: after any `apply`, every account that one of the batch's modify
instructions wrote (looked up in the store the call was routed to) has no
zero-valued storage slot. -/
theorem apply_modified_accounts_no_zero_slots (backend : MemoryBackend)
    (block : Word) (values : List Apply) (logs : List Log)
    (recs : List TxReceipt) (ccs : List Addr) (de : Bool) (a : Addr)
    (acct : MemoryAccount)
    (hmod : modifiesAddr values a = true)
    (hlook : routedLookup (backend.apply block values logs recs ccs de)
      (decide (block = backend.local_block_num)) block a = some acct) :
    noZeroSlots acct.storage = true := by
  have hlook' : routedLookup
      (applyLoop block (decide (block = backend.local_block_num)) ccs de values backend)
      (decide (block = backend.local_block_num)) block a = some acct := by
    simp only [routedLookup, apply_state, apply_archive_state] at hlook
    simp only [routedLookup]
    exact hlook
  exact normalizedAt_applyLoop block _ ccs de values backend a (Or.inl hmod) acct hlook'

/-- C4 witness: a tip modify that sweeps the pre-existing zero slot 9,
deletes slot 3 with a supplied zero value and inserts slot 4; the written
account holds exactly the non-zero slot `(4, 8)`. -/
theorem apply_modified_accounts_no_zero_slots_witness :
    modifiesAddr [Apply.modify 7 { balance := 5, nonce := 1 } none [(3, 0), (4, 8)] false] 7 = true ∧
    routedLookup ((MemoryBackend.new wVicinity [(7, wAccount)]).apply 100
        [Apply.modify 7 { balance := 5, nonce := 1 } none [(3, 0), (4, 8)] false] [] [] [] false)
      (decide ((100 : Word) = (MemoryBackend.new wVicinity [(7, wAccount)]).local_block_num))
      100 7 = some wModifiedAccount ∧
    noZeroSlots wModifiedAccount.storage = true :=
  ⟨by decide, by decide,
    apply_modified_accounts_no_zero_slots (MemoryBackend.new wVicinity [(7, wAccount)])
      100 [Apply.modify 7 { balance := 5, nonce := 1 } none [(3, 0), (4, 8)] false]
      [] [] [] false 7 wModifiedAccount (by decide) (by decide)⟩

/-- C5: two consecutive `apply` calls targeting the same block append their
log sequences in call order after whatever was already recorded; in
particular, starting from no recorded logs, the result is exactly the first
call's logs followed by the second call's logs. -/
theorem logs_accumulate (backend : MemoryBackend) (block : Word)
    (v1 : List Apply) (l1 : List Log) (r1 : List TxReceipt) (c1 : List Addr) (d1 : Bool)
    (v2 : List Apply) (l2 : List Log) (r2 : List TxReceipt) (c2 : List Addr) (d2 : Bool) :
    mlookup block ((backend.apply block v1 l1 r1 c1 d1).apply block v2 l2 r2 c2 d2).logs =
      some ((mlookup block backend.logs).getD [] ++ l1 ++ l2) ∧
    (mlookup block backend.logs = none →
      mlookup block ((backend.apply block v1 l1 r1 c1 d1).apply block v2 l2 r2 c2 d2).logs =
        some (l1 ++ l2)) := by
  constructor
  · rw [apply_logs_lookup, apply_logs_lookup]
    rfl
  · intro h
    rw [apply_logs_lookup, apply_logs_lookup, h]
    rfl

/-- C5 witness: two applies to block 99 of a fresh store, recording one log
each; the recorded sequence is the two logs in call order. -/
theorem logs_accumulate_witness :
    mlookup 99 (MemoryBackend.new wVicinity []).logs = none ∧
    mlookup 99 (((MemoryBackend.new wVicinity []).apply 99 [] [wLog1] [] [] false).apply
        99 [] [wLog2] [] [] false).logs = some [wLog1, wLog2] :=
  ⟨by decide,
    (logs_accumulate (MemoryBackend.new wVicinity []) 99
      [] [wLog1] [] [] false [] [wLog2] [] [] false).2 (by decide)⟩

/-- C6: `tx_receipt` returns the last receipt submitted under a hash (a
later receipt with the same hash overwrites the earlier one), receipts under
other hashes are untouched by an `apply`, and a hash never submitted yields
the default receipt. -/
theorem tx_receipt_last_write_wins :
    (∀ (backend : MemoryBackend) (block : Word) (values : List Apply)
      (logs : List Log) (recs : List TxReceipt) (ccs : List Addr) (de : Bool)
      (h : Word) (r : TxReceipt), lastRec recs h = some r →
      (backend.apply block values logs recs ccs de).tx_receipt h = r) ∧
    (∀ (backend : MemoryBackend) (block : Word) (values : List Apply)
      (logs : List Log) (recs : List TxReceipt) (ccs : List Addr) (de : Bool)
      (h : Word), lastRec recs h = none →
      (backend.apply block values logs recs ccs de).tx_receipt h =
        backend.tx_receipt h) ∧
    (∀ (v : MemoryVicinity) (s : List (Addr × MemoryAccount)) (h : Word),
      (MemoryBackend.new v s).tx_receipt h = TxReceipt.default) := by
  refine ⟨?_, ?_, ?_⟩
  · intro backend block values logs recs ccs de h r hr
    rw [MemoryBackend.tx_receipt, apply_tx_history_lookup, hr]
    rfl
  · intro backend block values logs recs ccs de h hr
    rw [MemoryBackend.tx_receipt, apply_tx_history_lookup, hr,
      MemoryBackend.tx_receipt]
    rfl
  · intro v s h
    rfl

/-- C6 witness: two receipts under hash 42 applied at once; lookup of 42
yields the second, lookup of the never-submitted 43 is unchanged (and is the
default on the fresh store). -/
theorem tx_receipt_last_write_wins_witness :
    lastRec [wReceipt1, wReceipt2] 42 = some wReceipt2 ∧
    ((MemoryBackend.new wVicinity []).apply 100 [] [] [wReceipt1, wReceipt2] [] false).tx_receipt 42
      = wReceipt2 ∧
    lastRec [wReceipt1, wReceipt2] 43 = none ∧
    ((MemoryBackend.new wVicinity []).apply 100 [] [] [wReceipt1, wReceipt2] [] false).tx_receipt 43
      = (MemoryBackend.new wVicinity []).tx_receipt 43 :=
  ⟨by decide,
    tx_receipt_last_write_wins.1 (MemoryBackend.new wVicinity []) 100 [] []
      [wReceipt1, wReceipt2] [] false 42 wReceipt2 (by decide),
    by decide,
    tx_receipt_last_write_wins.2.1 (MemoryBackend.new wVicinity []) 100 [] []
      [wReceipt1, wReceipt2] [] false 43 (by decide)⟩

/-- C7: a `Delete` instruction removes the address from the live
AccountStore whatever the call's block number is, leaves every other live
entry alone, and never touches the archive snapshots. -/
theorem delete_removes_from_live_state (backend : MemoryBackend) (block : Word)
    (address : Addr) (logs : List Log) (recs : List TxReceipt)
    (ccs : List Addr) (de : Bool) :
    mlookup address (backend.apply block [Apply.delete address] logs recs ccs de).state = none ∧
    (∀ a', a' ≠ address →
      mlookup a' (backend.apply block [Apply.delete address] logs recs ccs de).state =
        mlookup a' backend.state) ∧
    (backend.apply block [Apply.delete address] logs recs ccs de).archive_state =
      backend.archive_state := by
  have hstate : (backend.apply block [Apply.delete address] logs recs ccs de).state =
      mremove address backend.state := by
    rw [apply_state]
    rfl
  refine ⟨?_, ?_, ?_⟩
  · rw [hstate]
    exact mlookup_mremove_self _ _
  · intro a' ha'
    rw [hstate]
    exact mlookup_mremove_ne _ ha'
  · rw [apply_archive_state]
    rfl

/-- C7 witness: a delete of address 7 submitted for the non-tip block 99
still removes 7 from the live state, keeps address 8 lookups intact, and
leaves the archive map equal. -/
theorem delete_removes_from_live_state_witness :
    mlookup 7 ((MemoryBackend.new wVicinity [(7, wAccount)]).apply 99
      [Apply.delete 7] [] [] [] false).state = none ∧
    mlookup 8 ((MemoryBackend.new wVicinity [(7, wAccount)]).apply 99
      [Apply.delete 7] [] [] [] false).state =
      mlookup 8 (MemoryBackend.new wVicinity [(7, wAccount)]).state ∧
    ((MemoryBackend.new wVicinity [(7, wAccount)]).apply 99
      [Apply.delete 7] [] [] [] false).archive_state =
      (MemoryBackend.new wVicinity [(7, wAccount)]).archive_state :=
  ⟨(delete_removes_from_live_state (MemoryBackend.new wVicinity [(7, wAccount)])
      99 7 [] [] [] false).1,
    (delete_removes_from_live_state (MemoryBackend.new wVicinity [(7, wAccount)])
      99 7 [] [] [] false).2.1 8 (by decide),
    (delete_removes_from_live_state (MemoryBackend.new wVicinity [(7, wAccount)])
      99 7 [] [] [] false).2.2⟩

/-- C8: every read of an address absent from the live AccountStore returns
its documented default (balance 0 and nonce 0, the Keccak-256 digest of the
empty byte sequence, code size 0, empty code, the zero storage value, a
false existence flag), and reading a missing storage key of a present
address also returns zero. -/
theorem absent_account_defaults :
    (∀ (backend : MemoryBackend) (a : Addr), mlookup a backend.state = none →
      backend.basic a = { balance := 0, nonce := 0 } ∧
      (∀ keccak : List Nat → Word, backend.code_hash keccak a = keccak []) ∧
      backend.code_size a = 0 ∧
      backend.code a = [] ∧
      (∀ k, backend.storage a k = 0) ∧
      backend.exists_ a = false) ∧
    (∀ (backend : MemoryBackend) (a : Addr) (acct : MemoryAccount) (k : Word),
      mlookup a backend.state = some acct → mlookup k acct.storage = none →
      backend.storage a k = 0) := by
  constructor
  · intro backend a h
    refine ⟨?_, ?_, ?_, ?_, ?_, ?_⟩ <;>
      simp [MemoryBackend.basic, MemoryBackend.code_hash, MemoryBackend.code_size,
        MemoryBackend.code, MemoryBackend.storage, MemoryBackend.exists_,
        mcontains, Basic.default, h]
  · intro backend a acct k h1 h2
    simp [MemoryBackend.storage, h1, h2]

/-- C8 witness: the defaults evaluated on a fresh store at the absent
address 5, and the zero default for a missing key of the present account. -/
theorem absent_account_defaults_witness :
    (MemoryBackend.new wVicinity []).basic 5 = { balance := 0, nonce := 0 } ∧
    (MemoryBackend.new wVicinity []).code_hash (fun l => l.length + 1) 5 = 1 ∧
    (MemoryBackend.new wVicinity []).code_size 5 = 0 ∧
    (MemoryBackend.new wVicinity []).code 5 = [] ∧
    (MemoryBackend.new wVicinity []).storage 5 3 = 0 ∧
    (MemoryBackend.new wVicinity []).exists_ 5 = false ∧
    (MemoryBackend.new wVicinity [(7, wAccount)]).storage 7 4 = 0 := by
  have h := absent_account_defaults.1 (MemoryBackend.new wVicinity []) 5 (by decide)
  exact ⟨h.1, by simpa using h.2.1 (fun l => l.length + 1), h.2.2.1, h.2.2.2.1,
    h.2.2.2.2.1 3, h.2.2.2.2.2,
    absent_account_defaults.2 (MemoryBackend.new wVicinity [(7, wAccount)])
      7 wAccount 4 (by decide) (by decide)⟩

/-- C9: the recorded tip block number is set at construction to the
vicinity's block number, no `apply` call ever changes it, so on every
reachable store the tip routing test coincides with comparison against the
vicinity's block number. -/
theorem tip_block_fixed :
    (∀ (v : MemoryVicinity) (s : List (Addr × MemoryAccount)),
      (MemoryBackend.new v s).local_block_num = v.block_number) ∧
    (∀ (b : MemoryBackend) (block : Word) (values : List Apply)
      (logs : List Log) (recs : List TxReceipt) (ccs : List Addr) (de : Bool),
      (b.apply block values logs recs ccs de).local_block_num = b.local_block_num) ∧
    (∀ b : MemoryBackend, Reachable b →
      b.local_block_num = b.vicinity.block_number) ∧
    (∀ b : MemoryBackend, Reachable b → ∀ block : Word,
      (block = b.local_block_num ↔ block = b.vicinity.block_number)) := by
  refine ⟨fun v s => rfl, ?_, ?_, ?_⟩
  · intro b block values logs recs ccs de
    exact apply_local_block_num b block values logs recs ccs de
  · intro b hb
    exact reachable_local_eq b hb
  · intro b hb block
    rw [reachable_local_eq b hb]

/-- C9 witness: after an archival apply on a fresh store, the tip still
equals the vicinity's block number, and routing of block 100 agrees with
the vicinity comparison. -/
theorem tip_block_fixed_witness :
    ((MemoryBackend.new wVicinity []).apply 99 [] [] [] [] false).local_block_num =
      ((MemoryBackend.new wVicinity []).apply 99 [] [] [] [] false).vicinity.block_number ∧
    ((100 : Word) = ((MemoryBackend.new wVicinity []).apply 99 [] [] [] [] false).local_block_num ↔
      (100 : Word) = ((MemoryBackend.new wVicinity []).apply 99 [] [] [] [] false).vicinity.block_number) :=
  ⟨tip_block_fixed.2.2.1 _ (Reachable.step _ _ _ _ _ _ _ (Reachable.new wVicinity [])),
    tip_block_fixed.2.2.2 _ (Reachable.step _ _ _ _ _ _ _ (Reachable.new wVicinity [])) 100⟩

/-- C10: when the guard admits an index (queried number strictly below the
current block number and offset below the window length), the 256-bit
subtraction `blockNumber - number - 1` is exact (no underflow), the offset
is a valid index of the window, and `block_hash` returns that entry. -/
theorem block_hash_index_safe (b : MemoryBackend) (n : Word)
    (h1 : n < b.vicinity.block_number)
    (h2 : b.vicinity.block_number - n - 1 < b.vicinity.block_hashes.length) :
    n + 1 + (b.vicinity.block_number - n - 1) = b.vicinity.block_number ∧
    b.block_hash n =
      b.vicinity.block_hashes.get ⟨b.vicinity.block_number - n - 1, h2⟩ := by
  constructor
  · rw [Nat.sub_sub]
    exact Nat.add_sub_cancel' (Nat.succ_le_of_lt h1)
  · have hneg : ¬(b.vicinity.block_number ≤ n ∨
        b.vicinity.block_hashes.length ≤ b.vicinity.block_number - n - 1) := by
      rintro (hc | hc)
      · exact Nat.lt_irrefl _ (Nat.lt_of_lt_of_le h1 hc)
      · exact Nat.lt_irrefl _ (Nat.lt_of_lt_of_le h2 hc)
    rw [MemoryBackend.block_hash, if_neg hneg]
    exact List.getD_eq_get _ _ h2

/-- C10 witness: at the concrete vicinity (block 100, window of length 3)
and query 98, the subtraction is exact and the in-bounds entry 22 is
returned. -/
theorem block_hash_index_safe_witness :
    98 < (MemoryBackend.new wVicinity []).vicinity.block_number ∧
    (MemoryBackend.new wVicinity []).vicinity.block_number - 98 - 1 <
      (MemoryBackend.new wVicinity []).vicinity.block_hashes.length ∧
    98 + 1 + ((MemoryBackend.new wVicinity []).vicinity.block_number - 98 - 1) =
      (MemoryBackend.new wVicinity []).vicinity.block_number ∧
    (MemoryBackend.new wVicinity []).block_hash 98 = 22 := by
  refine ⟨by decide, by decide, ?_, ?_⟩
  · exact (block_hash_index_safe (MemoryBackend.new wVicinity []) 98
      (by decide) (by decide)).1
  · have heq := (block_hash_index_safe (MemoryBackend.new wVicinity []) 98
      (by decide) (by decide)).2
    rw [heq]
    decide

end CEVM
